import Mathlib

/-!
Verification of the timestamp correlation core of `specstory_wrapper.py`
(snippet extraction, watcher ledger appends, timestamp merging) and of the
pidfile-parsing step of `stop_watcher`.

Files are modelled as lists of characters (`Text`).  A markdown or ledger
file's content is one `Text`; reading a file into lines follows
`read_lines_text` in the source (normalize CRLF / CR to LF, then split on
LF), and every write of `line + '\n'` is modelled by appending the line and
an explicit `'\n'` character.  All definitions are structurally recursive so
that concrete runs reduce inside the kernel.
-/

set_option maxRecDepth 4000

namespace Specstory

abbrev Text := List Char

/-- Characters of a string literal. -/
def lit (s : String) : Text := s.toList

/-- Whitespace for Python `str.strip()` (ASCII subset). -/
def py_space (c : Char) : Bool :=
  c = ' ' || c = '\t' || c = '\n' || c = '\r' || c = '\x0b' || c = '\x0c'

/-- Python `s.strip()`. -/
def stripChars (l : Text) : Text :=
  ((l.dropWhile py_space).reverse.dropWhile py_space).reverse

/-- All suffixes of a list (longest first, ending with `[]`). -/
def tailsOf : Text → List Text
  | [] => [[]]
  | c :: rest => (c :: rest) :: tailsOf rest

/-- Python `pat in l` (substring containment). -/
def containsSub (l pat : Text) : Bool :=
  (tailsOf l).any (fun t => pat.isPrefixOf t)

/-- Python slice `s[3:-3]`. -/
def pySlice3 (l : Text) : Text := (l.drop 3).take (l.length - 6)

/-- Python `text.replace(chr(13) + chr(10), chr(10))`: left-to-right
non-overlapping replacement of CRLF by LF. -/
def replaceCRLF : Text → Text
  | '\r' :: '\n' :: rest => '\n' :: replaceCRLF rest
  | c :: rest => c :: replaceCRLF rest
  | [] => []

/-- Python `text.replace(chr(13), chr(10))`. -/
def replaceCR : Text → Text
  | '\r' :: rest => '\n' :: replaceCR rest
  | c :: rest => c :: replaceCR rest
  | [] => []

/-- Python `text.split(chr(10))`. -/
def splitNl : Text → List Text
  | [] => [[]]
  | c :: rest =>
    if c = '\n' then [] :: splitNl rest
    else
      match splitNl rest with
      | [] => [[c]]
      | l :: ls => (c :: l) :: ls

/-- `read_lines_text`: read a file into normalized (LF) lines. -/
def read_lines_text (t : Text) : List Text := splitNl (replaceCR (replaceCRLF t))

/-- Writing a list of lines back out, each terminated by LF (the merge loop
writes `line + '\n'` for every line; ledger appends end in LF likewise). -/
def joinLinesNl (ls : List Text) : Text := (ls.map (fun l => l ++ ['\n'])).flatten

/-- The header test of `find_conversation_header_indices`:
`line.startswith('_**') and line.endswith('**_') and ('User' in line or 'Agent' in line)`. -/
def is_header_line (line : Text) : Bool :=
  (lit "_**").isPrefixOf line && (lit "**_").isSuffixOf line &&
    (containsSub line (lit "User") || containsSub line (lit "Agent"))

/-- `find_conversation_header_indices`: indices of User/Agent header lines. -/
def find_conversation_header_indices (lines : List Text) : List Nat :=
  ((lines.enum).filter (fun p => is_header_line p.2)).map (fun p => p.1)

/-- Scan for the first non-empty, non-separator line in a tail of the file. -/
def first_meaningful_aux : List Text → Option Text
  | [] => none
  | l :: ls =>
    let c := stripChars l
    if c = [] ∨ c = lit "---" then first_meaningful_aux ls else some c

/-- `first_meaningful_line_after`: first non-empty, non-separator line after a
header, falling back to the header's own stripped text. -/
def first_meaningful_line_after (lines : List Text) (start_idx : Nat) : Text :=
  match first_meaningful_aux (lines.drop (start_idx + 1)) with
  | some c => c
  | none => stripChars (lines.getD start_idx [])

/-- The snippets the watcher records for one markdown file (loop body of
`start_watcher`): headers with meaningful content, in file order. -/
def watcher_snippets (lines : List Text) : List Text :=
  (find_conversation_header_indices lines).filterMap (fun idx =>
    let header_txt := stripChars (lines.getD idx [])
    let snippet := first_meaningful_line_after lines idx
    if snippet ≠ [] ∧ snippet ≠ header_txt ∧ snippet ≠ lit "---" then some snippet else none)

/-- Ledger lines as read back (`[ln.strip() for ln in f if ln.strip()]`,
with Python universal-newline translation). -/
def ledger_entries (t : Text) : List Text :=
  ((read_lines_text t).map stripChars).filter (fun l => l ≠ [])

/-- One pass of the watcher loop over one markdown file: append a
`now|snippet` line for each newly appeared snippet. -/
def watcher_pass (now md led : Text) : Text :=
  let existing := ledger_entries led
  let snippets := watcher_snippets (read_lines_text md)
  if existing.length < snippets.length then
    led ++ joinLinesNl ((snippets.drop existing.length).map (fun s => now ++ '|' :: s))
  else led

/-- `extract_base_role`: text between the markers, truncated at the first
opening parenthesis when a parenthesized pair is present. -/
def extract_base_role (header_line : Text) : Text :=
  let content := pySlice3 header_line
  if content.contains '(' && content.contains ')' then
    stripChars (content.takeWhile (fun c => !(c == '(')))
  else stripChars content

/-- Matches `(dddd-dd-ddTdd:dd:ddZ)` at the head of the list (the regex of
`header_has_timestamp`; the pattern has fixed shape, so searching is trying
it at every suffix). -/
def tsPatAt : Text → Bool
  | '(' :: y1 :: y2 :: y3 :: y4 :: '-' :: m1 :: m2 :: '-' :: d1 :: d2 :: 'T' ::
      h1 :: h2 :: ':' :: n1 :: n2 :: ':' :: s1 :: s2 :: 'Z' :: ')' :: _ =>
    [y1, y2, y3, y4, m1, m2, d1, d2, h1, h2, n1, n2, s1, s2].all Char.isDigit
  | _ => false

/-- `header_has_timestamp`: the header (or raw line) contains an embedded
ISO timestamp in parentheses. -/
def header_has_timestamp (header_line : Text) : Bool :=
  let content :=
    if (lit "_**").isPrefixOf header_line && (lit "**_").isSuffixOf header_line then
      pySlice3 header_line
    else header_line
  (tailsOf content).any tsPatAt

/-- Python `s.split(chr(124), 1)`. -/
def split_pipe_once (s : Text) : List Text :=
  if s.contains '|' then
    [s.takeWhile (fun c => !(c == '|')), (s.dropWhile (fun c => !(c == '|'))).tail]
  else [s]

/-- Ledger entries parsed into `(timestamp, snippet)` pairs, in file order
(lines without a pipe are skipped). -/
def build_ts_map (entries : List Text) : List (Text × Text) :=
  entries.filterMap (fun ln =>
    match split_pipe_once ln with
    | [ts, sn] => some (stripChars ts, stripChars sn)
    | _ => none)

/-- Lookup in the snippet-to-timestamp dict: for duplicate snippets the later
insertion overwrites the earlier one, so the last pair wins. -/
def ts_lookup (pairs : List (Text × Text)) (sn : Text) : Option Text :=
  (pairs.reverse.find? (fun p => decide (p.2 = sn))).map (fun p => p.1)

/-- `header_snippet_map` of `merge_timestamps`: header index to snippet, only
for headers with meaningful content. -/
def header_snippet_map (md_lines : List Text) : List (Nat × Text) :=
  (find_conversation_header_indices md_lines).filterMap (fun h_idx =>
    let header_txt := stripChars (md_lines.getD h_idx [])
    let snippet := first_meaningful_line_after md_lines h_idx
    if snippet ≠ [] ∧ snippet ≠ header_txt ∧ snippet ≠ lit "---" then
      some (h_idx, snippet)
    else none)

/-- The header-shape test of the eligibility scan of `merge_timestamps`
(`line.startswith('_**') and line.endswith('**_')`; no role containment). -/
def is_simple_header (line : Text) : Bool :=
  (lit "_**").isPrefixOf line && (lit "**_").isSuffixOf line

/-- Eligibility scan of `merge_timestamps`: a `_**...**_` line sets the
in-User-block state to whether the line starts with `_**User`; a meaningful
line inside a User block makes the file eligible. -/
def has_user_content_loop : List Text → Bool → Bool
  | [], _ => false
  | l :: ls, inU =>
    if is_simple_header l then
      has_user_content_loop ls ((lit "_**User").isPrefixOf l)
    else if inU = true ∧ stripChars l ≠ [] ∧ stripChars l ≠ lit "---" then true
    else has_user_content_loop ls inU

/-- The file-iteration of the eligibility scan, over the same normalized
lines (`rstrip` of the LF terminator is the LF split). -/
def has_user_content (md : Text) : Bool :=
  has_user_content_loop (read_lines_text md) false

/-- Headers with content whose snippet has no ledger entry (the
`missing_timestamps` list of `merge_timestamps`, in header order). -/
def missing_list (hmap : List (Nat × Text)) (tmap : List (Text × Text)) : List (Nat × Text) :=
  hmap.filter (fun p => (ts_lookup tmap p.2).isNone)

/-- One iteration of the rewrite loop of `merge_timestamps`:
`line.startswith('_**') and ('User' in line or 'Agent' in line) and line.endswith('**_')`,
preserve already-stamped headers, embed the matched timestamp otherwise. -/
def rewrite_line (hmap : List (Nat × Text)) (tmap : List (Text × Text))
    (line_idx : Nat) (line : Text) : Text :=
  if (lit "_**").isPrefixOf line &&
      (containsSub line (lit "User") || containsSub line (lit "Agent")) &&
      (lit "**_").isSuffixOf line then
    if header_has_timestamp line then line
    else
      match hmap.find? (fun p => decide (p.1 = line_idx)) with
      | some p =>
        match ts_lookup tmap p.2 with
        | some ts => lit "_**" ++ extract_base_role line ++ lit " (" ++ ts ++ lit ")**_"
        | none => line
      | none => line
  else line

/-- The snippet-to-timestamp dict after the backfill loop: the records
appended for missing snippets are also inserted into the dict. -/
def merge_tmap2 (now md led : Text) : List (Text × Text) :=
  let hmap := header_snippet_map (read_lines_text md)
  let tmap := build_ts_map (ledger_entries led)
  tmap ++ (missing_list hmap tmap).map (fun p => (now, p.2))

/-- The lines written by the rewrite loop of `merge_timestamps` (each is
written followed by one LF). -/
def merge_rewritten_lines (now md led : Text) : List Text :=
  let md_lines := read_lines_text md
  let hmap := header_snippet_map md_lines
  let tmap2 := merge_tmap2 now md led
  (md_lines.enum).map (fun p => rewrite_line hmap tmap2 p.1 p.2)

/-- The backfill records appended to the ledger (`now|snippet` per missing
header, each written followed by one LF). -/
def merge_backfill (now md led : Text) : List Text :=
  let hmap := header_snippet_map (read_lines_text md)
  let tmap := build_ts_map (ledger_entries led)
  (missing_list hmap tmap).map (fun p => now ++ '|' :: p.2)

/-- `merge_timestamps` on one markdown/ledger pair, with the current time as
parameter: result is (new markdown bytes, new ledger bytes).  An ineligible
file (no User block with content) is left unchanged and its ledger is
truncated to empty; an eligible file is rewritten line by line and its ledger
gets the backfill records appended. -/
def merge_md_text (now md led : Text) : Text × Text :=
  if has_user_content md then
    (joinLinesNl (merge_rewritten_lines now md led),
     led ++ joinLinesNl (merge_backfill now md led))
  else (md, [])

/-! ## The pidfile-parsing step of `stop_watcher`

`stop_watcher` reads the pidfile text, strips it, and treats a missing file
or empty text as nothing to stop.  Otherwise it runs
`pid = int(json.loads(pid_text).get("pid"))` inside a
`try ... except (json.JSONDecodeError, ValueError, KeyError): pid = int(pid_text)`.
The JSON model below is a restricted `json.loads`: null, booleans, integers
(no floats, no exponents), strings without escape sequences, arrays and
objects.  Python `int(str)` is modelled without underscore separators.  Both
restrictions only remove success paths that the claims do not exercise. -/

/-- JSON values (restricted model of the `json` module). -/
inductive JVal where
  | jnull : JVal
  | jbool : Bool → JVal
  | jint : Int → JVal
  | jstr : Text → JVal
  | jarr : List JVal → JVal
  | jobj : List (Text × JVal) → JVal

/-- JSON whitespace. -/
def json_space (c : Char) : Bool :=
  c = ' ' || c = '\t' || c = '\n' || c = '\r'

def skipWs (s : Text) : Text := s.dropWhile json_space

/-- Parse a JSON string body after the opening quote (no escape sequences in
this model). -/
def parseStrBody : Text → Option (Text × Text)
  | [] => none
  | '"' :: rest => some ([], rest)
  | '\\' :: _ => none
  | c :: rest => (parseStrBody rest).map (fun p => (c :: p.1, p.2))

/-- Numeric value of a digit list. -/
def digitsVal (ds : Text) : Nat :=
  ds.foldl (fun acc c => acc * 10 + (c.toNat - '0'.toNat)) 0

/-- Parse a non-negative JSON integer (digits, no leading zero, no fraction
or exponent). -/
def parseNatPart (s : Text) : Option (Nat × Text) :=
  let ds := s.takeWhile Char.isDigit
  let rest := s.dropWhile Char.isDigit
  if ds = [] then none
  else if 1 < ds.length ∧ ds.headD '0' = '0' then none
  else
    match rest with
    | c :: _ => if c = '.' ∨ c = 'e' ∨ c = 'E' then none else some (digitsVal ds, rest)
    | [] => some (digitsVal ds, rest)

/-- Parse a JSON integer with optional minus sign. -/
def parseNum (s : Text) : Option (JVal × Text) :=
  match s with
  | '-' :: rest => (parseNatPart rest).map (fun p => (JVal.jint (-(p.1 : Int)), p.2))
  | _ => (parseNatPart s).map (fun p => (JVal.jint (p.1 : Int), p.2))

/-- Parse comma-separated array items up to the closing bracket, given a
value parser (fuel-bounded). -/
def parseItemsWith (pv : Text → Option (JVal × Text)) : Nat → Text → Option (List JVal × Text)
  | 0, _ => none
  | fuel + 1, s =>
    match pv s with
    | none => none
    | some (v, rest) =>
      match skipWs rest with
      | ',' :: r2 => (parseItemsWith pv fuel r2).map (fun p => (v :: p.1, p.2))
      | ']' :: r2 => some ([v], r2)
      | _ => none

/-- Parse comma-separated object members up to the closing brace, given a
value parser (fuel-bounded). -/
def parseMembersWith (pv : Text → Option (JVal × Text)) :
    Nat → Text → Option (List (Text × JVal) × Text)
  | 0, _ => none
  | fuel + 1, s =>
    match skipWs s with
    | '"' :: rest =>
      match parseStrBody rest with
      | none => none
      | some (k, r1) =>
        match skipWs r1 with
        | ':' :: r2 =>
          match pv r2 with
          | none => none
          | some (v, r3) =>
            match skipWs r3 with
            | ',' :: r4 => (parseMembersWith pv fuel r4).map (fun p => ((k, v) :: p.1, p.2))
            | '\x7d' :: r4 => some ([(k, v)], r4)
            | _ => none
        | _ => none
    | _ => none

/-- Parse one JSON value (fuel-bounded; fuel larger than the input length
always suffices). -/
def parseVal : Nat → Text → Option (JVal × Text)
  | 0, _ => none
  | fuel + 1, s =>
    match skipWs s with
    | 'n' :: 'u' :: 'l' :: 'l' :: rest => some (JVal.jnull, rest)
    | 't' :: 'r' :: 'u' :: 'e' :: rest => some (JVal.jbool true, rest)
    | 'f' :: 'a' :: 'l' :: 's' :: 'e' :: rest => some (JVal.jbool false, rest)
    | '"' :: rest => (parseStrBody rest).map (fun p => (JVal.jstr p.1, p.2))
    | '[' :: rest =>
      (match skipWs rest with
       | ']' :: r2 => some (JVal.jarr [], r2)
       | r2 => (parseItemsWith (parseVal fuel) fuel r2).map (fun p => (JVal.jarr p.1, p.2)))
    | '\x7b' :: rest =>
      (match skipWs rest with
       | '\x7d' :: r2 => some (JVal.jobj [], r2)
       | r2 => (parseMembersWith (parseVal fuel) fuel r2).map (fun p => (JVal.jobj p.1, p.2)))
    | rest => parseNum rest

/-- `json.loads`: parse one value and require only whitespace after it. -/
def json_loads (s : Text) : Option JVal :=
  match parseVal (s.length + 1) s with
  | some (v, rest) => if skipWs rest = [] then some v else none
  | none => none

/-- Python `dict.get`: duplicate keys in the source text keep the last
binding. -/
def jobj_get (kvs : List (Text × JVal)) (k : Text) : Option JVal :=
  (kvs.reverse.find? (fun p => decide (p.1 = k))).map (fun p => p.2)

/-- Python `int(s)` on a string: optional sign and decimal digits, with
surrounding whitespace allowed (underscore separators are not modelled). -/
def py_int_of_str (s : Text) : Option Int :=
  let t := stripChars s
  let core : Text → Option Nat := fun ds =>
    if ds ≠ [] ∧ ds.all Char.isDigit then some (digitsVal ds) else none
  match t with
  | '+' :: ds => (core ds).map (fun n => (n : Int))
  | '-' :: ds => (core ds).map (fun n => -(n : Int))
  | ds => (core ds).map (fun n => (n : Int))

/-- The Python exceptions that can escape the parsing step of
`stop_watcher`. -/
inductive PyExc where
  | valueError : PyExc
  | typeError : PyExc
  | attributeError : PyExc
deriving DecidableEq

/-- Result of the pidfile-parsing step of `stop_watcher`. -/
inductive StopOutcome where
  | nothingToStop : StopOutcome
  | stops : Int → StopOutcome
  | raises : PyExc → StopOutcome
deriving DecidableEq

/-- The fallback `pid = int(pid_text)` that runs when the `try` body raises
`json.JSONDecodeError`, `ValueError` or `KeyError`; its own `ValueError`
is not caught. -/
def stop_fallback (pid_text : Text) : StopOutcome :=
  match py_int_of_str pid_text with
  | some n => StopOutcome.stops n
  | none => StopOutcome.raises PyExc.valueError

/-- The pidfile-parsing step of `stop_watcher`, as a function of the pidfile
state (`none` = the file never appears before the deadline).  A missing or
blank pidfile is nothing to stop.  Otherwise
`pid = int(json.loads(pid_text).get("pid"))` runs with
`except (json.JSONDecodeError, ValueError, KeyError)` falling back to
`int(pid_text)`: `meta.get` on a non-dict raises `AttributeError` (uncaught),
`int(None)` and `int` of a container raise `TypeError` (uncaught), and
`int` of a non-numeric string raises a caught `ValueError`. -/
def stop_watcher_outcome (pidfile : Option Text) : StopOutcome :=
  match pidfile with
  | none => StopOutcome.nothingToStop
  | some content =>
    let pid_text := stripChars content
    if pid_text = [] then StopOutcome.nothingToStop
    else
      match json_loads pid_text with
      | some (JVal.jobj kvs) =>
        (match jobj_get kvs (lit "pid") with
         | some (JVal.jint n) => StopOutcome.stops n
         | some (JVal.jbool b) => StopOutcome.stops (if b then 1 else 0)
         | some (JVal.jstr s) =>
           (match py_int_of_str s with
            | some n => StopOutcome.stops n
            | none => stop_fallback pid_text)
         | some JVal.jnull => StopOutcome.raises PyExc.typeError
         | none => StopOutcome.raises PyExc.typeError
         | some (JVal.jarr _) => StopOutcome.raises PyExc.typeError
         | some (JVal.jobj _) => StopOutcome.raises PyExc.typeError)
      | some _ => StopOutcome.raises PyExc.attributeError
      | none => stop_fallback pid_text

/-! ## Spec-side predicate for merge eligibility

The spec reads: a file is processed only if it contains at least one header
of role User followed by non-empty, non-separator content.  In the code a
role-User header is a `_**...**_` line that starts with `_**User`, and
content follows it when some later non-header line is meaningful with no
header line in between. -/

/-- Positions `i < j` witnessing a User header (`lines[i]`) followed, with no
header in between, by meaningful content (`lines[j]`). -/
def user_content_at (lines : List Text) (i j : Nat) : Prop :=
  i < j ∧ j < lines.length ∧
  is_simple_header (lines.getD i []) = true ∧
  (lit "_**User").isPrefixOf (lines.getD i []) = true ∧
  (∀ k, i < k → k < j → is_simple_header (lines.getD k []) = false) ∧
  is_simple_header (lines.getD j []) = false ∧
  stripChars (lines.getD j []) ≠ [] ∧
  stripChars (lines.getD j []) ≠ lit "---"

/-- The guard of `header_snippet_map` for one header index. -/
def snippet_guard (md_lines : List Text) (h_idx : Nat) : Prop :=
  first_meaningful_line_after md_lines h_idx ≠ [] ∧
  first_meaningful_line_after md_lines h_idx ≠ stripChars (md_lines.getD h_idx []) ∧
  first_meaningful_line_after md_lines h_idx ≠ lit "---"

instance (md_lines : List Text) (h_idx : Nat) : Decidable (snippet_guard md_lines h_idx) := by
  unfold snippet_guard; infer_instance

/-! ## Concrete fixtures (Scenario A of the spec and variants) -/

/-- A current-time stamp used when running merges in examples. -/
def nowA : Text := lit "2024-06-01T00:00:00Z"

/-- Scenario A markdown: a User turn `Hello` and an Agent turn `Hi there`. -/
def mdScenA : Text := lit "_**User**_\nHello\n_**Agent**_\nHi there\n"

/-- Scenario A ledger: entries for both snippets. -/
def ledScenA : Text := lit "2024-01-01T00:00:00Z|Hello\n2024-01-01T00:00:05Z|Hi there\n"

/-! ## Helper lemmas -/

theorem getElem?_enum_zero {α : Type} (l : List α) (m : Nat) :
    (l.enum)[m]? = l[m]?.map (fun a => (m, a)) := by
  rw [List.enum_eq_enumFrom, List.getElem?_enumFrom]
  simp

theorem mem_enum_iff {α : Type} {l : List α} {i : Nat} {a : α} :
    (i, a) ∈ l.enum ↔ l[i]? = some a := by
  constructor
  · intro h
    obtain ⟨n, hn⟩ := List.mem_iff_getElem?.mp h
    rw [getElem?_enum_zero] at hn
    cases hl : l[n]? with
    | none => rw [hl] at hn; simp at hn
    | some b =>
      rw [hl] at hn
      simp only [Option.map_some', Option.some.injEq, Prod.mk.injEq] at hn
      rw [← hn.1, hl, hn.2]
  · intro h
    refine List.mem_iff_getElem?.mpr ⟨i, ?_⟩
    rw [getElem?_enum_zero, h]
    rfl

theorem enum_map_getD {α β : Type} (l : List α) (f : Nat × α → β) (i : Nat)
    (h : i < l.length) (d : β) (d' : α) :
    (l.enum.map f).getD i d = f (i, l.getD i d') := by
  rw [List.getD_eq_getElem?_getD, List.getElem?_map, getElem?_enum_zero,
    List.getElem?_eq_getElem h, List.getD_eq_getElem?_getD, List.getElem?_eq_getElem h]
  rfl

/-- Membership in `find_conversation_header_indices` is exactly: in range and
satisfying the header test. -/
theorem mem_fchi {lines : List Text} {i : Nat} :
    i ∈ find_conversation_header_indices lines ↔
      i < lines.length ∧ is_header_line (lines.getD i []) = true := by
  unfold find_conversation_header_indices
  rw [List.mem_map]
  constructor
  · rintro ⟨p, hp, rfl⟩
    rw [List.mem_filter] at hp
    obtain ⟨hmem, hhdr⟩ := hp
    obtain ⟨i, a⟩ := p
    have hga : lines[i]? = some a := mem_enum_iff.mp hmem
    have hlen : i < lines.length := by
      by_contra hc
      rw [List.getElem?_eq_none (Nat.le_of_not_lt hc)] at hga
      exact Option.noConfusion hga
    refine ⟨hlen, ?_⟩
    rw [List.getD_eq_getElem?_getD, hga]
    exact hhdr
  · rintro ⟨hlen, hhdr⟩
    refine ⟨(i, lines.getD i []), ?_, rfl⟩
    rw [List.mem_filter]
    refine ⟨mem_enum_iff.mpr ?_, hhdr⟩
    rw [List.getElem?_eq_getElem hlen, List.getD_eq_getElem?_getD,
      List.getElem?_eq_getElem hlen]
    rfl

/-- Membership in `header_snippet_map`, characterized. -/
theorem mem_header_snippet_map {md_lines : List Text} {i : Nat} {sn : Text} :
    (i, sn) ∈ header_snippet_map md_lines ↔
      i ∈ find_conversation_header_indices md_lines ∧
      snippet_guard md_lines i ∧ sn = first_meaningful_line_after md_lines i := by
  unfold header_snippet_map
  rw [List.mem_filterMap]
  constructor
  · rintro ⟨a, ha, hfa⟩
    by_cases hg : first_meaningful_line_after md_lines a ≠ [] ∧
        first_meaningful_line_after md_lines a ≠ stripChars (md_lines.getD a []) ∧
        first_meaningful_line_after md_lines a ≠ lit "---"
    · rw [if_pos hg] at hfa
      obtain ⟨rfl, rfl⟩ : a = i ∧ first_meaningful_line_after md_lines a = sn := by
        have := Option.some.inj hfa
        exact ⟨congrArg Prod.fst this, congrArg Prod.snd this⟩
      exact ⟨ha, hg, rfl⟩
    · rw [if_neg hg] at hfa
      exact Option.noConfusion hfa
  · rintro ⟨hmem, hg, rfl⟩
    refine ⟨i, hmem, ?_⟩
    rw [snippet_guard] at hg
    dsimp only
    rw [if_pos hg]

/-- Any pair of `header_snippet_map` with first component `i` is the pair of
`i` and its snippet; hence `find?` on the map returns exactly that pair. -/
theorem find?_header_snippet_map {md_lines : List Text} {i : Nat} {sn : Text}
    (h : (i, sn) ∈ header_snippet_map md_lines) :
    (header_snippet_map md_lines).find? (fun p => decide (p.1 = i)) = some (i, sn) := by
  have hs : ((header_snippet_map md_lines).find? (fun p => decide (p.1 = i))).isSome := by
    rw [List.find?_isSome]
    exact ⟨(i, sn), h, by simp⟩
  obtain ⟨q, hq⟩ := Option.isSome_iff_exists.mp hs
  have hqmem : q ∈ header_snippet_map md_lines := List.mem_of_find?_eq_some hq
  have hqp : q.1 = i := by
    have := List.find?_some hq
    simpa using this
  obtain ⟨i', sn'⟩ := q
  obtain rfl : i' = i := hqp
  have h1 := (mem_header_snippet_map.mp hqmem).2.2
  have h2 := (mem_header_snippet_map.mp h).2.2
  rw [hq, h1, ← h2]

/-- `ts_lookup` is `none` exactly when no pair carries the snippet. -/
theorem ts_lookup_eq_none {pairs : List (Text × Text)} {sn : Text} :
    ts_lookup pairs sn = none ↔ ∀ p ∈ pairs, p.2 ≠ sn := by
  unfold ts_lookup
  rw [Option.map_eq_none', List.find?_eq_none]
  constructor
  · intro h p hp
    have := h p (by rwa [List.mem_reverse])
    simpa using this
  · intro h p hp
    have := h p (List.mem_reverse.mp hp)
    simpa using this

/-- A successful base-map lookup survives the backfill append: the appended
pairs all carry snippets that were absent from the base map. -/
theorem ts_lookup_merge_tmap2_of_base {now md led sn ts : Text}
    (h : ts_lookup (build_ts_map (ledger_entries led)) sn = some ts) :
    ts_lookup (merge_tmap2 now md led) sn = some ts := by
  unfold merge_tmap2
  unfold ts_lookup
  rw [List.reverse_append, List.find?_append]
  have happ :
      (((missing_list (header_snippet_map (read_lines_text md))
          (build_ts_map (ledger_entries led))).map (fun p => (now, p.2))).reverse.find?
        (fun p => decide (p.2 = sn))) = none := by
    rw [List.find?_eq_none]
    intro p hp
    rw [List.mem_reverse, List.mem_map] at hp
    obtain ⟨q, hq, rfl⟩ := hp
    rw [missing_list, List.mem_filter] at hq
    have hnone : ts_lookup (build_ts_map (ledger_entries led)) q.2 = none :=
      Option.isNone_iff_eq_none.mp hq.2
    simp only [decide_eq_true_eq]
    intro hqsn
    rw [hqsn] at hnone
    rw [hnone] at h
    exact Option.noConfusion h
  rw [happ, Option.none_or]
  exact h

theorem ts_lookup_merge_tmap2_of_missing {now md led sn : Text} {i : Nat}
    (h : (i, sn) ∈ missing_list (header_snippet_map (read_lines_text md))
          (build_ts_map (ledger_entries led))) :
    ts_lookup (merge_tmap2 now md led) sn = some now := by
  have hmiss : ts_lookup (build_ts_map (ledger_entries led)) sn = none := by
    rw [missing_list, List.mem_filter] at h
    simpa using Option.isNone_iff_eq_none.mp h.2
  unfold merge_tmap2 ts_lookup
  rw [List.reverse_append, List.find?_append]
  set app := ((missing_list (header_snippet_map (read_lines_text md))
      (build_ts_map (ledger_entries led))).map (fun p => (now, p.2))).reverse with happ
  have hsome : (app.find? (fun p => decide (p.2 = sn))).isSome := by
    rw [List.find?_isSome]
    refine ⟨(now, sn), ?_, by simp⟩
    rw [happ, List.mem_reverse, List.mem_map]
    exact ⟨(i, sn), h, rfl⟩
  obtain ⟨q, hq⟩ := Option.isSome_iff_exists.mp hsome
  have hqmem : q ∈ app := List.mem_of_find?_eq_some hq
  have hq1 : q.1 = now := by
    rw [happ, List.mem_reverse, List.mem_map] at hqmem
    obtain ⟨p, _, hpq⟩ := hqmem
    rw [← hpq]
  rw [hq, Option.or_some, Option.map_some', hq1]

/-- The header test of the rewrite loop agrees with `is_header_line` (the
conjuncts appear in a different order in the source). -/
theorem rewrite_cond_eq (line : Text) :
    ((lit "_**").isPrefixOf line &&
        (containsSub line (lit "User") || containsSub line (lit "Agent")) &&
        (lit "**_").isSuffixOf line) = is_header_line line := by
  unfold is_header_line
  cases (lit "_**").isPrefixOf line <;>
    cases (lit "**_").isSuffixOf line <;>
      cases (containsSub line (lit "User") || containsSub line (lit "Agent")) <;> rfl

/-- The merged file's line at an in-range index is the rewrite of the
original line at that index. -/
theorem merge_rewritten_lines_getD {now md led : Text} {i : Nat}
    (h : i < (read_lines_text md).length) :
    (merge_rewritten_lines now md led).getD i [] =
      rewrite_line (header_snippet_map (read_lines_text md)) (merge_tmap2 now md led) i
        ((read_lines_text md).getD i []) := by
  unfold merge_rewritten_lines
  exact enum_map_getD _ _ i h [] []

/-- Core embedding lemma: a content header without an embedded timestamp
whose snippet resolves in the post-backfill map is rewritten with exactly
that timestamp. -/
theorem rewrite_embeds {now md led sn ts : Text} {h_idx : Nat}
    (hmem : (h_idx, sn) ∈ header_snippet_map (read_lines_text md))
    (hnots : header_has_timestamp ((read_lines_text md).getD h_idx []) = false)
    (hlook : ts_lookup (merge_tmap2 now md led) sn = some ts) :
    (merge_rewritten_lines now md led).getD h_idx [] =
      lit "_**" ++ extract_base_role ((read_lines_text md).getD h_idx []) ++
        lit " (" ++ ts ++ lit ")**_" := by
  have hf := (mem_header_snippet_map.mp hmem).1
  have hlen := (mem_fchi.mp hf).1
  have hhdr := (mem_fchi.mp hf).2
  rw [merge_rewritten_lines_getD hlen]
  unfold rewrite_line
  rw [rewrite_cond_eq, hhdr, if_pos rfl, hnots]
  rw [if_neg (by simp)]
  rw [find?_header_snippet_map hmem]
  dsimp only
  rw [hlook]

/-- When every line after a position is blank or a separator, the scan finds
nothing. -/
theorem first_meaningful_aux_eq_none {ls : List Text}
    (h : ∀ l ∈ ls, stripChars l = [] ∨ stripChars l = lit "---") :
    first_meaningful_aux ls = none := by
  induction ls with
  | nil => rfl
  | cons x xs ih =>
    unfold first_meaningful_aux
    dsimp only
    rw [if_pos (h x (List.mem_cons_self x xs))]
    exact ih (fun l hl => h l (List.mem_cons_of_mem x hl))

theorem joinLinesNl_append (a b : List Text) :
    joinLinesNl (a ++ b) = joinLinesNl a ++ joinLinesNl b := by
  unfold joinLinesNl
  rw [List.map_append, List.flatten_append]

theorem joinLinesNl_nil : joinLinesNl [] = [] := rfl

/-- A Boolean prefix extends across an appended suffix. -/
theorem isPrefixOf_append_extend {m t y : Text} (h : m.isPrefixOf t = true) :
    m.isPrefixOf (t ++ y) = true := by
  induction m generalizing t with
  | nil => simp [List.isPrefixOf]
  | cons a as ih =>
    cases t with
    | nil => simp [List.isPrefixOf] at h
    | cons b bs =>
      simp only [List.isPrefixOf, List.cons_append, Bool.and_eq_true] at h ⊢
      exact ⟨h.1, ih h.2⟩

theorem containsSub_cons (c : Char) (rest pat : Text) :
    containsSub (c :: rest) pat = (pat.isPrefixOf (c :: rest) || containsSub rest pat) := rfl

/-- Every list contains the empty pattern. -/
theorem containsSub_nil_pat (l : Text) : containsSub l [] = true := by
  induction l with
  | nil => rfl
  | cons c rest ih =>
    rw [containsSub_cons, ih]
    simp [List.isPrefixOf]

/-- Containment is preserved by prepending. -/
theorem containsSub_append_left {a m : Text} (x : Text) (h : containsSub a m = true) :
    containsSub (x ++ a) m = true := by
  induction x with
  | nil => exact h
  | cons c x' ih =>
    rw [List.cons_append, containsSub_cons]
    rw [ih]
    simp

/-- Containment is preserved by appending. -/
theorem containsSub_append_right {a m : Text} (y : Text) (h : containsSub a m = true) :
    containsSub (a ++ y) m = true := by
  induction a with
  | nil =>
    cases m with
    | nil => exact containsSub_nil_pat y
    | cons b bs => simp [containsSub, tailsOf, List.isPrefixOf] at h
  | cons c a' ih =>
    rw [containsSub_cons] at h
    rw [List.cons_append, containsSub_cons]
    rcases Bool.or_eq_true_iff.mp h with hl | hr
    · have hx := isPrefixOf_append_extend (y := y) hl
      rw [List.cons_append] at hx
      rw [hx]
      simp
    · rw [ih hr]
      simp

/-- If the eligibility scan reports content, there is a meaningful
non-header line governed by its nearest preceding header (a User one) or,
when no header precedes it, by the initial state. -/
theorem has_user_content_loop_true {l : List Text} {inU : Bool}
    (h : has_user_content_loop l inU = true) :
    ∃ j, j < l.length ∧ is_simple_header (l.getD j []) = false ∧
      stripChars (l.getD j []) ≠ [] ∧ stripChars (l.getD j []) ≠ lit "---" ∧
      ((∃ i, i < j ∧ is_simple_header (l.getD i []) = true ∧
          (lit "_**User").isPrefixOf (l.getD i []) = true ∧
          ∀ k, i < k → k < j → is_simple_header (l.getD k []) = false) ∨
        (inU = true ∧ ∀ k, k < j → is_simple_header (l.getD k []) = false)) := by
  induction l generalizing inU with
  | nil => exact absurd h (by simp [has_user_content_loop])
  | cons x xs ih =>
    unfold has_user_content_loop at h
    by_cases hx : is_simple_header x = true
    · rw [if_pos hx] at h
      obtain ⟨j, hj, hnh, hne, hns, hdisj⟩ := ih h
      refine ⟨j + 1, by simpa using Nat.succ_lt_succ hj, by simpa using hnh,
        by simpa using hne, by simpa using hns, ?_⟩
      rcases hdisj with ⟨i, hij, hih, hiu, hbetween⟩ | ⟨hu, hall⟩
      · refine Or.inl ⟨i + 1, Nat.succ_lt_succ hij, by simpa using hih,
          by simpa using hiu, ?_⟩
        intro k hk1 hk2
        cases k with
        | zero => exact absurd hk1 (Nat.not_lt_zero _).elim
        | succ k' =>
          have := hbetween k' (Nat.lt_of_succ_lt_succ hk1) (Nat.lt_of_succ_lt_succ hk2)
          simpa using this
      · refine Or.inl ⟨0, Nat.succ_pos j, by simpa using hx, by simpa using hu, ?_⟩
        intro k hk1 hk2
        cases k with
        | zero => exact absurd hk1 (Nat.lt_irrefl 0)
        | succ k' =>
          have := hall k' (Nat.lt_of_succ_lt_succ hk2)
          simpa using this
    · rw [if_neg hx] at h
      have hxf : is_simple_header x = false := Bool.eq_false_iff.mpr (fun hc => hx hc)
      by_cases hc : inU = true ∧ stripChars x ≠ [] ∧ stripChars x ≠ lit "---"
      · refine ⟨0, Nat.succ_pos _, by simpa using hxf, by simpa using hc.2.1,
          by simpa using hc.2.2, Or.inr ⟨hc.1, ?_⟩⟩
        intro k hk
        exact absurd hk (Nat.not_lt_zero k)
      · rw [if_neg hc] at h
        obtain ⟨j, hj, hnh, hne, hns, hdisj⟩ := ih h
        refine ⟨j + 1, by simpa using Nat.succ_lt_succ hj, by simpa using hnh,
          by simpa using hne, by simpa using hns, ?_⟩
        rcases hdisj with ⟨i, hij, hih, hiu, hbetween⟩ | ⟨hu, hall⟩
        · refine Or.inl ⟨i + 1, Nat.succ_lt_succ hij, by simpa using hih,
            by simpa using hiu, ?_⟩
          intro k hk1 hk2
          cases k with
          | zero => exact absurd hk1 (Nat.not_lt_zero _).elim
          | succ k' =>
            have := hbetween k' (Nat.lt_of_succ_lt_succ hk1) (Nat.lt_of_succ_lt_succ hk2)
            simpa using this
        · refine Or.inr ⟨hu, ?_⟩
          intro k hk
          cases k with
          | zero => simpa using hxf
          | succ k' =>
            have := hall k' (Nat.lt_of_succ_lt_succ hk)
            simpa using this

/-- If the whole-file scan (initial state: not in a User block) reports
content, the spec-side pattern holds somewhere. -/
theorem has_user_content_pattern {md : Text} (h : has_user_content md = true) :
    ∃ i j, user_content_at (read_lines_text md) i j := by
  obtain ⟨j, hj, hnh, hne, hns, hdisj⟩ := has_user_content_loop_true h
  rcases hdisj with ⟨i, hij, hih, hiu, hbetween⟩ | ⟨hu, _⟩
  · exact ⟨i, j, hij, hj, hih, hiu, hbetween, hnh, hne, hns⟩
  · exact absurd hu (by simp)

/-! ## Claims -/

/-- Claim C1: the claim states that merging the same eligible log/ledger pair
twice produces byte-identical markdown on the second run.  The code violates
this: `read_lines_text` splits on LF keeping the trailing empty field, and
the rewrite loop writes every field with an LF appended, so each merge run
appends one extra newline byte.  Evaluated on the Scenario A pair: the
second run's markdown equals the first run's markdown plus one LF, hence is
not byte-identical. -/
theorem claim_C1_merge_not_byte_idempotent :
    (merge_md_text nowA (merge_md_text nowA mdScenA ledScenA).1
        (merge_md_text nowA mdScenA ledScenA).2).1
      = (merge_md_text nowA mdScenA ledScenA).1 ++ ['\n'] ∧
    (merge_md_text nowA (merge_md_text nowA mdScenA ledScenA).1
        (merge_md_text nowA mdScenA ledScenA).2).1
      ≠ (merge_md_text nowA mdScenA ledScenA).1 := by
  exact ⟨by decide, by decide⟩

/-- Claim C2: for a header whose snippet matches a ledger entry (per the
dict lookup over the parsed ledger), the rewritten header embeds exactly
that entry's timestamp; the merged markdown is the LF-joined rewritten
lines. -/
theorem claim_C2_exact_correlation (now md led sn ts : Text) (h_idx : Nat)
    (helig : has_user_content md = true)
    (hmem : (h_idx, sn) ∈ header_snippet_map (read_lines_text md))
    (hnots : header_has_timestamp ((read_lines_text md).getD h_idx []) = false)
    (hlook : ts_lookup (build_ts_map (ledger_entries led)) sn = some ts) :
    (merge_md_text now md led).1 = joinLinesNl (merge_rewritten_lines now md led) ∧
    (merge_rewritten_lines now md led).getD h_idx [] =
      lit "_**" ++ extract_base_role ((read_lines_text md).getD h_idx []) ++
        lit " (" ++ ts ++ lit ")**_" := by
  refine ⟨?_, rewrite_embeds hmem hnots (ts_lookup_merge_tmap2_of_base hlook)⟩
  unfold merge_md_text
  rw [if_pos helig]

/-- Witness for claim C2: Scenario A, with both headers rewritten to carry
exactly the ledger timestamps. -/
theorem claim_C2_witness :
    (merge_rewritten_lines nowA mdScenA ledScenA).getD 0 []
      = lit "_**User (2024-01-01T00:00:00Z)**_" ∧
    (merge_rewritten_lines nowA mdScenA ledScenA).getD 2 []
      = lit "_**Agent (2024-01-01T00:00:05Z)**_" := by
  constructor
  · exact ((claim_C2_exact_correlation nowA mdScenA ledScenA (lit "Hello")
      (lit "2024-01-01T00:00:00Z") 0 (by decide) (by decide) (by decide) (by decide)).2).trans
      (by decide)
  · exact ((claim_C2_exact_correlation nowA mdScenA ledScenA (lit "Hi there")
      (lit "2024-01-01T00:00:05Z") 2 (by decide) (by decide) (by decide) (by decide)).2).trans
      (by decide)

/-- Counterexample for claim C3: a merge of an ineligible file truncates its
non-empty ledger to empty, so a ledger can shrink across merge operations. -/
theorem claim_C3_counterexample :
    (ledger_entries ((merge_md_text nowA (lit "just text\n")
        (lit "2024-01-01T00:00:00Z|noise\n")).2)).length
      < (ledger_entries (lit "2024-01-01T00:00:00Z|noise\n")).length := by
  decide

/-- Claim C3 (amended): a watcher pass only appends whole newline-terminated
records to the ledger, and so does a merge of an eligible file (the
backfill); a merge of an ineligible file instead truncates the ledger to
empty. -/
theorem claim_C3_append_only_amended (now md : Text) (entries : List Text) :
    (∃ recs, watcher_pass now md (joinLinesNl entries) = joinLinesNl (entries ++ recs)) ∧
    (has_user_content md = true →
      ∃ recs, (merge_md_text now md (joinLinesNl entries)).2 = joinLinesNl (entries ++ recs)) ∧
    (has_user_content md = false → (merge_md_text now md (joinLinesNl entries)).2 = []) := by
  refine ⟨?_, ?_, ?_⟩
  · unfold watcher_pass
    dsimp only
    by_cases hc : (ledger_entries (joinLinesNl entries)).length <
        (watcher_snippets (read_lines_text md)).length
    · rw [if_pos hc]
      exact ⟨_, by rw [joinLinesNl_append]⟩
    · rw [if_neg hc]
      exact ⟨[], by rw [List.append_nil]⟩
  · intro he
    unfold merge_md_text
    rw [if_pos he]
    exact ⟨merge_backfill now md (joinLinesNl entries), by rw [joinLinesNl_append]⟩
  · intro he
    unfold merge_md_text
    rw [if_neg (by simp [he])]

/-- Witness for claim C3: an eligible merge extends a one-record ledger only
by appended records, and an ineligible merge truncates it. -/
theorem claim_C3_witness :
    (∃ recs, (merge_md_text nowA mdScenA (joinLinesNl [lit "2024-01-01T00:00:00Z|Hello"])).2
        = joinLinesNl ([lit "2024-01-01T00:00:00Z|Hello"] ++ recs)) ∧
    (merge_md_text nowA (lit "just text\n") (joinLinesNl [lit "x|y"])).2 = [] := by
  exact ⟨(claim_C3_append_only_amended nowA mdScenA
      [lit "2024-01-01T00:00:00Z|Hello"]).2.1 (by decide),
    (claim_C3_append_only_amended nowA (lit "just text\n") [lit "x|y"]).2.2 (by decide)⟩

/-- Claim C4: a header whose entire following tail is blank or separator
lines has no derivable snippet: it never enters the header-to-snippet map
(so the backfill never creates a record for it), the rewrite writes it
through unchanged, and an ineligible merge leaves the whole file unchanged
anyway. -/
theorem claim_C4_no_content_no_timestamp (now md led : Text) (h_idx : Nat)
    (hlen : h_idx < (read_lines_text md).length)
    (hhdr : is_header_line ((read_lines_text md).getD h_idx []) = true)
    (hbody : ∀ l ∈ (read_lines_text md).drop (h_idx + 1),
        stripChars l = [] ∨ stripChars l = lit "---") :
    (merge_rewritten_lines now md led).getD h_idx [] = (read_lines_text md).getD h_idx [] ∧
    (∀ sn, (h_idx, sn) ∉ header_snippet_map (read_lines_text md)) ∧
    (has_user_content md = false → (merge_md_text now md led).1 = md) := by
  have hsnip : first_meaningful_line_after (read_lines_text md) h_idx =
      stripChars ((read_lines_text md).getD h_idx []) := by
    unfold first_meaningful_line_after
    rw [first_meaningful_aux_eq_none hbody]
  have hnotmem : ∀ sn, (h_idx, sn) ∉ header_snippet_map (read_lines_text md) := by
    intro sn hmem
    exact (mem_header_snippet_map.mp hmem).2.1.2.1 hsnip
  have hfind : (header_snippet_map (read_lines_text md)).find?
      (fun p => decide (p.1 = h_idx)) = none := by
    rw [List.find?_eq_none]
    intro p hp
    simp only [decide_eq_true_eq]
    intro hpe
    exact hnotmem p.2 (by rw [← hpe, Prod.mk.eta]; exact hp)
  refine ⟨?_, hnotmem, ?_⟩
  · rw [merge_rewritten_lines_getD hlen]
    unfold rewrite_line
    rw [rewrite_cond_eq, hhdr, if_pos rfl]
    cases hts : header_has_timestamp ((read_lines_text md).getD h_idx []) with
    | true => rw [if_pos rfl]
    | false =>
      rw [if_neg (by simp), hfind]
  · intro he
    unfold merge_md_text
    rw [if_neg (by simp [he])]

/-- Witness for claim C4: a header followed only by a separator and a blank
line is written through unchanged even though the ledger holds entries. -/
theorem claim_C4_witness :
    (merge_rewritten_lines nowA (lit "_**User**_\nHello\n_**Agent**_\n---\n")
        ledScenA).getD 2 [] = lit "_**Agent**_" := by
  exact ((claim_C4_no_content_no_timestamp nowA (lit "_**User**_\nHello\n_**Agent**_\n---\n")
      ledScenA 2 (by decide) (by decide) (by decide)).1).trans (by decide)

/-- Claim C5: a file with no User header followed (with no header in
between) by meaningful content is ineligible: the merge leaves the markdown
unchanged and truncates the ledger to empty.  A role-User header is a
`_**...**_` line starting with `_**User`, as in the eligibility scan. -/
theorem claim_C5_ineligible_cleared (now md led : Text)
    (h : ∀ i j, ¬ user_content_at (read_lines_text md) i j) :
    merge_md_text now md led = (md, []) := by
  have hne : has_user_content md = false := by
    by_contra hc
    have ht : has_user_content md = true := by
      revert hc
      cases has_user_content md <;> simp
    obtain ⟨i, j, hij⟩ := has_user_content_pattern ht
    exact h i j hij
  unfold merge_md_text
  rw [if_neg (by simp [hne])]

/-- Witness for claim C5 (Scenario D): a log whose only header is a bare
User header with no following content is classified ineligible; its
non-empty ledger is cleared and the markdown is untouched. -/
theorem claim_C5_witness :
    merge_md_text nowA (lit "_**User**_\n") (lit "2024-01-01T00:00:00Z|noise\n")
      = (lit "_**User**_\n", []) := by
  apply claim_C5_ineligible_cleared
  intro i j hij
  obtain ⟨hij1, hij2, _, _, _, h6, h7, _⟩ := hij
  have hlen : (read_lines_text (lit "_**User**_\n")).length = 2 := by decide
  rw [hlen] at hij2
  have hj : j = 0 ∨ j = 1 := by omega
  rcases hj with rfl | rfl
  · exact absurd h6 (by decide)
  · exact h7 (by decide)

/-- Counterexample for claim C6: a header that already carries an embedded
timestamp but whose snippet is missing from the ledger still triggers the
ledger backfill with the current time, yet its header keeps the old
timestamp — the merge does not embed the backfilled time into the header as
the claim states. -/
theorem claim_C6_counterexample :
    (merge_md_text nowA (lit "_**User (2020-01-01T00:00:00Z)**_\nHello\n") []).2
      = lit "2024-06-01T00:00:00Z|Hello\n" ∧
    (merge_rewritten_lines nowA (lit "_**User (2020-01-01T00:00:00Z)**_\nHello\n") []).getD 0 []
      = lit "_**User (2020-01-01T00:00:00Z)**_" ∧
    containsSub ((merge_rewritten_lines nowA
        (lit "_**User (2020-01-01T00:00:00Z)**_\nHello\n") []).getD 0 []) nowA = false := by
  exact ⟨by decide, by decide, by decide⟩

/-- Claim C6 (amended): for an eligible log, a header with a derivable
snippet and no matching ledger entry makes the merge append exactly one
`now|snippet` record per such header — this append is the only ledger
mutation — and, provided the header does not already carry an embedded
timestamp, that same current time is embedded into the header. -/
theorem claim_C6_backfill_amended (now md led sn : Text) (h_idx : Nat)
    (helig : has_user_content md = true)
    (hmem : (h_idx, sn) ∈ header_snippet_map (read_lines_text md))
    (hmiss : ts_lookup (build_ts_map (ledger_entries led)) sn = none)
    (hnots : header_has_timestamp ((read_lines_text md).getD h_idx []) = false) :
    (merge_md_text now md led).2 =
      led ++ joinLinesNl ((missing_list (header_snippet_map (read_lines_text md))
        (build_ts_map (ledger_entries led))).map (fun p => now ++ '|' :: p.2)) ∧
    (h_idx, sn) ∈ missing_list (header_snippet_map (read_lines_text md))
      (build_ts_map (ledger_entries led)) ∧
    (merge_rewritten_lines now md led).getD h_idx [] =
      lit "_**" ++ extract_base_role ((read_lines_text md).getD h_idx []) ++
        lit " (" ++ now ++ lit ")**_" := by
  have hm : (h_idx, sn) ∈ missing_list (header_snippet_map (read_lines_text md))
      (build_ts_map (ledger_entries led)) := by
    rw [missing_list, List.mem_filter]
    exact ⟨hmem, by simp [hmiss]⟩
  refine ⟨?_, hm, rewrite_embeds hmem hnots (ts_lookup_merge_tmap2_of_missing hm)⟩
  unfold merge_md_text merge_backfill
  rw [if_pos helig]

/-- Witness for claim C6 (Scenario C): a content header with an empty ledger
gets exactly one backfilled record stamped with the current time, and that
same time is embedded into the header. -/
theorem claim_C6_witness :
    (merge_md_text (lit "2024-01-02T03:04:05Z") (lit "_**User**_\nHello") []).2
      = lit "2024-01-02T03:04:05Z|Hello\n" ∧
    (merge_rewritten_lines (lit "2024-01-02T03:04:05Z") (lit "_**User**_\nHello") []).getD 0 []
      = lit "_**User (2024-01-02T03:04:05Z)**_" := by
  have h := claim_C6_backfill_amended (lit "2024-01-02T03:04:05Z") (lit "_**User**_\nHello")
    [] (lit "Hello") 0 (by decide) (by decide) (by decide) (by decide)
  exact ⟨h.1.trans (by decide), h.2.2.trans (by decide)⟩

/-- Counterexample for claim C7: with two ledger entries carrying the same
snippet `Hello`, the rewritten header embeds the timestamp of the second
(later) entry, not of the first as the claim states. -/
theorem claim_C7_counterexample :
    (merge_rewritten_lines nowA (lit "_**User**_\nHello")
        (lit "2024-01-01T00:00:00Z|Hello\n2024-01-01T00:00:09Z|Hello\n")).getD 0 []
      = lit "_**User (2024-01-01T00:00:09Z)**_" ∧
    (merge_rewritten_lines nowA (lit "_**User**_\nHello")
        (lit "2024-01-01T00:00:00Z|Hello\n2024-01-01T00:00:09Z|Hello\n")).getD 0 []
      ≠ lit "_**User (2024-01-01T00:00:00Z)**_" := by
  exact ⟨by decide, by decide⟩

/-- Claim C7 (amended): matching is exact-text with the last ledger entry
winning for a duplicated snippet — if the parsed ledger splits as
`pre ++ (ts, sn) :: post` with no later entry for `sn`, the header carrying
snippet `sn` embeds `ts`. -/
theorem claim_C7_last_wins (now md led sn ts : Text) (h_idx : Nat)
    (pre post : List (Text × Text))
    (helig : has_user_content md = true)
    (hmem : (h_idx, sn) ∈ header_snippet_map (read_lines_text md))
    (hnots : header_has_timestamp ((read_lines_text md).getD h_idx []) = false)
    (hsplit : build_ts_map (ledger_entries led) = pre ++ (ts, sn) :: post)
    (hpost : ∀ p ∈ post, p.2 ≠ sn) :
    (merge_md_text now md led).1 = joinLinesNl (merge_rewritten_lines now md led) ∧
    (merge_rewritten_lines now md led).getD h_idx [] =
      lit "_**" ++ extract_base_role ((read_lines_text md).getD h_idx []) ++
        lit " (" ++ ts ++ lit ")**_" := by
  have hlook : ts_lookup (build_ts_map (ledger_entries led)) sn = some ts := by
    unfold ts_lookup
    rw [hsplit, List.reverse_append, List.reverse_cons, List.append_assoc,
      List.find?_append]
    have hnone : (post.reverse.find? (fun p => decide (p.2 = sn))) = none := by
      rw [List.find?_eq_none]
      intro p hp
      simpa using hpost p (List.mem_reverse.mp hp)
    rw [hnone, Option.none_or, List.singleton_append,
      List.find?_cons_of_pos _ (by simp), Option.map_some']
  refine ⟨?_, rewrite_embeds hmem hnots (ts_lookup_merge_tmap2_of_base hlook)⟩
  unfold merge_md_text
  rw [if_pos helig]

/-- Witness for claim C7: the duplicate-snippet ledger, where the embedded
timestamp is the second entry's. -/
theorem claim_C7_witness :
    (merge_rewritten_lines nowA (lit "_**User**_\nHello\nBye")
        (lit "2024-02-02T00:00:00Z|Hello\n2024-02-02T00:00:09Z|Hello\n")).getD 0 []
      = lit "_**User (2024-02-02T00:00:09Z)**_" := by
  exact ((claim_C7_last_wins nowA (lit "_**User**_\nHello\nBye")
      (lit "2024-02-02T00:00:00Z|Hello\n2024-02-02T00:00:09Z|Hello\n") (lit "Hello")
      (lit "2024-02-02T00:00:09Z") 0 [(lit "2024-02-02T00:00:00Z", lit "Hello")] []
      (by decide) (by decide) (by decide) (by decide) (by decide)).2).trans (by decide)

/-- Counterexample for claim C8: a model-name suffix written in parentheses,
as in `_**Agent (gpt-4)**_`, is destroyed by the rewrite: the original
header contains `gpt-4`, the rewritten header is `_**Agent (ts)**_` and no
longer contains it. -/
theorem claim_C8_counterexample :
    containsSub ((read_lines_text
        (lit "_**User**_\nHello\n_**Agent (gpt-4)**_\nHi there\n")).getD 2 [])
        (lit "gpt-4") = true ∧
    (merge_rewritten_lines nowA (lit "_**User**_\nHello\n_**Agent (gpt-4)**_\nHi there\n")
        ledScenA).getD 2 [] = lit "_**Agent (2024-01-01T00:00:05Z)**_" ∧
    containsSub ((merge_rewritten_lines nowA
        (lit "_**User**_\nHello\n_**Agent (gpt-4)**_\nHi there\n") ledScenA).getD 2 [])
        (lit "gpt-4") = false := by
  exact ⟨by decide, by decide, by decide⟩

/-- Claim C8 (amended): a suffix after the role name survives the rewrite
exactly when the header's inner text does not contain a parenthesis pair:
then the rewritten header is the full stripped inner text with the
timestamp parenthesized after it, so any model-name text it contained is
still contained; a parenthesized suffix is truncated at the first `(` by
`extract_base_role`. -/
theorem claim_C8_model_suffix (now md led sn ts : Text) (h_idx : Nat)
    (hmem : (h_idx, sn) ∈ header_snippet_map (read_lines_text md))
    (hnots : header_has_timestamp ((read_lines_text md).getD h_idx []) = false)
    (hlook : ts_lookup (build_ts_map (ledger_entries led)) sn = some ts)
    (hnp : ¬((pySlice3 ((read_lines_text md).getD h_idx [])).contains '(' = true ∧
        (pySlice3 ((read_lines_text md).getD h_idx [])).contains ')' = true)) :
    (merge_rewritten_lines now md led).getD h_idx [] =
      lit "_**" ++ stripChars (pySlice3 ((read_lines_text md).getD h_idx [])) ++
        lit " (" ++ ts ++ lit ")**_" ∧
    (∀ m, containsSub (stripChars (pySlice3 ((read_lines_text md).getD h_idx []))) m = true →
      containsSub ((merge_rewritten_lines now md led).getD h_idx []) m = true) := by
  have hbase : extract_base_role ((read_lines_text md).getD h_idx []) =
      stripChars (pySlice3 ((read_lines_text md).getD h_idx [])) := by
    unfold extract_base_role
    dsimp only
    rw [if_neg (by rw [Bool.and_eq_true]; exact hnp)]
  have h1 := @rewrite_embeds now md led sn ts h_idx hmem hnots
    (@ts_lookup_merge_tmap2_of_base now md led sn ts hlook)
  rw [hbase] at h1
  refine ⟨h1, ?_⟩
  intro m hm
  rw [h1]
  have h2 := containsSub_append_right
    (lit " (" ++ ts ++ lit ")**_") hm
  have h3 := containsSub_append_left (lit "_**") h2
  simpa [List.append_assoc] using h3

/-- Witness for claim C8: a model-name suffix without parentheses, as in
`_**Agent gpt-4**_`, is preserved with the timestamp appended after it. -/
theorem claim_C8_witness :
    (merge_rewritten_lines nowA (lit "_**User**_\nHello\n_**Agent gpt-4**_\nHi there\n")
        ledScenA).getD 2 [] = lit "_**Agent gpt-4 (2024-01-01T00:00:05Z)**_" ∧
    containsSub ((merge_rewritten_lines nowA
        (lit "_**User**_\nHello\n_**Agent gpt-4**_\nHi there\n") ledScenA).getD 2 [])
        (lit "gpt-4") = true := by
  have h := claim_C8_model_suffix nowA (lit "_**User**_\nHello\n_**Agent gpt-4**_\nHi there\n")
    ledScenA (lit "Hi there") (lit "2024-01-01T00:00:05Z") 2
    (by decide) (by decide) (by decide) (by decide)
  exact ⟨h.1.trans (by decide), h.2 (lit "gpt-4") (by decide)⟩

/-- Counterexample for claim C9: a pidfile whose content is neither valid
JSON nor a plain integer makes `stop_watcher` raise `ValueError` from the
fallback `int(pid_text)` (the fallback runs outside any handler), instead of
returning normally as the claim states. -/
theorem claim_C9_counterexample :
    stop_watcher_outcome (some (lit "garbage")) = StopOutcome.raises PyExc.valueError ∧
    stop_watcher_outcome (some (lit "garbage")) ≠ StopOutcome.nothingToStop := by
  exact ⟨by decide, by decide⟩

/-- Claim C9 (amended): a missing pidfile and an empty or whitespace-only
pidfile are treated as nothing to stop (no error), but a pidfile whose
stripped content is neither parseable JSON nor a plain integer raises
`ValueError` instead of returning normally. -/
theorem claim_C9_stop_watcher_amended (c : Text) :
    stop_watcher_outcome none = StopOutcome.nothingToStop ∧
    (stripChars c = [] → stop_watcher_outcome (some c) = StopOutcome.nothingToStop) ∧
    (stripChars c ≠ [] → json_loads (stripChars c) = none →
      py_int_of_str (stripChars c) = none →
      stop_watcher_outcome (some c) = StopOutcome.raises PyExc.valueError) := by
  refine ⟨rfl, ?_, ?_⟩
  · intro h
    unfold stop_watcher_outcome
    dsimp only
    rw [if_pos h]
  · intro h1 h2 h3
    unfold stop_watcher_outcome
    dsimp only
    rw [if_neg h1, h2]
    unfold stop_fallback
    rw [h3]

/-- Witness for claim C9: a whitespace-only pidfile is nothing to stop; a
corrupted one raises. -/
theorem claim_C9_witness :
    stop_watcher_outcome (some (lit "  ")) = StopOutcome.nothingToStop ∧
    stop_watcher_outcome (some (lit "###")) = StopOutcome.raises PyExc.valueError := by
  exact ⟨(claim_C9_stop_watcher_amended (lit "  ")).2.1 (by decide),
    (claim_C9_stop_watcher_amended (lit "###")).2.2 (by decide) (by rfl) (by decide)⟩

/-- Claim C10: a line is recognized as a conversation header by the snippet
extractor exactly when it starts with `_**`, ends with `**_` and contains
`User` or `Agent`; the merge rewrite passes any other line through
unchanged; and the roleless line `_**Agents overview**_` (which contains
`Agent` as a substring of `Agents`) is treated as a header and acquires an
embedded timestamp. -/
theorem claim_C10_header_recognition :
    (∀ (lines : List Text) (i : Nat),
        i ∈ find_conversation_header_indices lines ↔
          i < lines.length ∧
          ((lit "_**").isPrefixOf (lines.getD i []) = true ∧
            (lit "**_").isSuffixOf (lines.getD i []) = true ∧
            (containsSub (lines.getD i []) (lit "User") = true ∨
              containsSub (lines.getD i []) (lit "Agent") = true))) ∧
    (∀ (hmap : List (Nat × Text)) (tmap : List (Text × Text)) (i : Nat) (line : Text),
        ¬((lit "_**").isPrefixOf line = true ∧ (lit "**_").isSuffixOf line = true ∧
          (containsSub line (lit "User") = true ∨ containsSub line (lit "Agent") = true)) →
        rewrite_line hmap tmap i line = line) ∧
    (merge_rewritten_lines nowA (lit "_**User**_\nHello\n_**Agents overview**_\nStuff\n")
        (lit "2024-01-01T00:00:00Z|Hello\n2024-01-01T00:00:05Z|Stuff\n")).getD 2 []
      = lit "_**Agents overview (2024-01-01T00:00:05Z)**_" := by
  refine ⟨?_, ?_, by decide⟩
  · intro lines i
    rw [mem_fchi]
    constructor
    · rintro ⟨hlen, hh⟩
      refine ⟨hlen, ?_⟩
      unfold is_header_line at hh
      simp only [Bool.and_eq_true, Bool.or_eq_true] at hh
      exact ⟨hh.1.1, hh.1.2, hh.2⟩
    · rintro ⟨hlen, h1, h2, h3⟩
      refine ⟨hlen, ?_⟩
      unfold is_header_line
      simp only [Bool.and_eq_true, Bool.or_eq_true]
      exact ⟨⟨h1, h2⟩, h3⟩
  · intro hmap tmap i line hn
    have hfalse : ((lit "_**").isPrefixOf line &&
        (containsSub line (lit "User") || containsSub line (lit "Agent")) &&
        (lit "**_").isSuffixOf line) ≠ true := by
      rw [rewrite_cond_eq]
      unfold is_header_line
      intro hc
      rw [Bool.and_eq_true, Bool.and_eq_true, Bool.or_eq_true] at hc
      exact hn ⟨hc.1.1, hc.1.2, hc.2⟩
    unfold rewrite_line
    rw [if_neg hfalse]

/-- Witness for claim C10: a plain line passes through the rewrite
unchanged, and the roleless `_**Agents overview**_` line is recognized as a
header. -/
theorem claim_C10_witness :
    rewrite_line [] [] 0 (lit "plain text") = lit "plain text" ∧
    0 ∈ find_conversation_header_indices [lit "_**Agents overview**_"] := by
  exact ⟨claim_C10_header_recognition.2.1 [] [] 0 (lit "plain text") (by decide),
    (claim_C10_header_recognition.1 [lit "_**Agents overview**_"] 0).mpr (by decide)⟩

end Specstory
